import Mathlib

/-!
Verification of the monthly stock-performance transform and its derived
classifier and counters, as implemented in `src/main.py`
(`StockPerformanceAnalyzer`).

The embedding follows the pandas/numpy pipeline of
`_get_stock_performance_transposed`, `_apply_color_with_nan`,
`_color_data_with_nan` and `_get_positive_negative_counts`:

* prices are rationals; a cell value is an `NpVal`, which is either a
  rational or one of the IEEE special values `nan`, `inf`, `ninf`
  (numpy float division by zero yields inf or nan, it does not raise);
* `groupby('Month')` groups rows by (year, month) keeping the original
  row order within each group, so within a group the observations taken
  as first and last (`x[0]`, `x[-1]`) are positional, not chronological;
* the pivot table has one row per distinct year and one column per
  distinct month present in the data, with `nan` in cells for which the
  (year, month) pair has no observation.
-/

/-- A calendar date (year, month, day), as carried by the DatetimeIndex of
the downloaded frame. -/
structure Date where
  year : Nat
  month : Nat
  day : Nat
deriving DecidableEq, Repr

/-- A daily observation: a date and its adjusted-close price. -/
structure Obs where
  date : Date
  price : ℚ
deriving DecidableEq, Repr

/-- Lexicographic order on dates. -/
def dateLe (a b : Date) : Prop :=
  a.year < b.year ∨
    (a.year = b.year ∧
      (a.month < b.month ∨ (a.month = b.month ∧ a.day ≤ b.day)))

instance (a b : Date) : Decidable (dateLe a b) := by
  unfold dateLe; exact inferInstance

/-- The input sequence is ordered by date ascending. -/
def sortedByDate (obs : List Obs) : Prop :=
  obs.Pairwise (fun a b => dateLe a.date b.date)

instance (obs : List Obs) : Decidable (sortedByDate obs) := by
  unfold sortedByDate; exact inferInstance

/-- A numpy float64 value as it matters here: an exact rational, or one of
the special values produced by division by zero. -/
inductive NpVal where
  | nan : NpVal
  | inf : NpVal
  | ninf : NpVal
  | num : ℚ → NpVal
deriving DecidableEq, Repr

/-- `np.isnan`. -/
def np_isnan : NpVal → Bool
  | NpVal.nan => true
  | _ => false

/-- Comparison `v > c` as numpy evaluates it: any comparison with nan is
false, `inf` exceeds every finite bound, `ninf` none. -/
def np_gt : NpVal → ℚ → Bool
  | NpVal.nan, _ => false
  | NpVal.inf, _ => true
  | NpVal.ninf, _ => false
  | NpVal.num q, c => decide (c < q)

/-- Comparison `v >= c` under numpy semantics. -/
def np_ge : NpVal → ℚ → Bool
  | NpVal.nan, _ => false
  | NpVal.inf, _ => true
  | NpVal.ninf, _ => false
  | NpVal.num q, c => decide (c ≤ q)

/-- Comparison `v <= c` under numpy semantics. -/
def np_le : NpVal → ℚ → Bool
  | NpVal.nan, _ => false
  | NpVal.inf, _ => false
  | NpVal.ninf, _ => true
  | NpVal.num q, c => decide (q ≤ c)

/-- Float division as numpy performs it on exact operands: a zero
denominator yields nan (0/0) or a signed infinity, never an error. -/
def npDiv (a b : ℚ) : NpVal :=
  if b = 0 then
    (if a = 0 then NpVal.nan else if 0 < a then NpVal.inf else NpVal.ninf)
  else NpVal.num (a / b)

/-- `stock_data.index.to_period('M')`: truncation of a date to its
(year, month) grouping key. -/
def monthKey (o : Obs) : Nat × Nat :=
  (o.date.year, o.date.month)

/-- The rows falling in month (y, m), in their original order — exactly the
group that `groupby('Month')` hands to the applied lambda. -/
def monthGroup (obs : List Obs) (y m : Nat) : List Obs :=
  obs.filter (fun o => decide (monthKey o = (y, m)))

/-- The applied lambda
`(x['Adj Close'][-1] - x['Adj Close'][0]) / x['Adj Close'][0]`:
the return over a group, from its positionally first and last rows.
`none` when the group is empty (no such group is ever formed). -/
def groupReturn : List Obs → Option NpVal
  | [] => none
  | a :: t => some (npDiv ((t.getLastD a).price - a.price) a.price)

/-- The cell of `performance_pivot` at year y, month m, as an optional
value: `some` exactly when the month had at least one observation.
Embeds `_get_stock_performance_transposed` at cell level. -/
def perfCell (obs : List Obs) (y m : Nat) : Option NpVal :=
  groupReturn (monthGroup obs y m)

/-- The cell as the pivot table materializes it: absent cells hold nan. -/
def pivotCell (obs : List Obs) (y m : Nat) : NpVal :=
  (perfCell obs y m).getD NpVal.nan

/-- Row labels of the pivot: the distinct years present, ascending. -/
def yearsOf (obs : List Obs) : List Nat :=
  ((obs.map (fun o => o.date.year)).dedup).insertionSort (fun a b => a ≤ b)

/-- Column labels of the pivot: the distinct months present, ascending. -/
def monthsOf (obs : List Obs) : List Nat :=
  ((obs.map (fun o => o.date.month)).dedup).insertionSort (fun a b => a ≤ b)

/-- The pivot table `performance_pivot` as a row-major grid. -/
def perfRows (obs : List Obs) : List (List NpVal) :=
  (yearsOf obs).map (fun y => (monthsOf obs).map (fun m => pivotCell obs y m))

/-- `_apply_color_with_nan`: nan to -1, value > 0.1 to 2,
0 <= value <= 0.1 to 1, otherwise 0. -/
def apply_color_with_nan (value : NpVal) : Int :=
  if np_isnan value then -1
  else if np_gt value (1 / 10) then 2
  else if np_ge value 0 && np_le value (1 / 10) then 1
  else 0

/-- `_color_data_with_nan`: the classifier vectorized over the pivot. -/
def colorRows (obs : List Obs) : List (List Int) :=
  (yearsOf obs).map
    (fun y => (monthsOf obs).map (fun m => apply_color_with_nan (pivotCell obs y m)))

/-- The per-cell predicate of `(self.performance_data > 0)`. -/
def cellPos (v : NpVal) : Bool :=
  np_gt v 0

/-- The per-cell predicate of `(self.performance_data <= 0)`. -/
def cellNonpos (v : NpVal) : Bool :=
  np_le v 0

/-- `_get_positive_negative_counts(axis=0)`, positive side: for a month
column, the count of strictly positive cells down the year rows. -/
def posCountByMonth (obs : List Obs) (m : Nat) : Nat :=
  (yearsOf obs).countP (fun y => cellPos (pivotCell obs y m))

/-- `_get_positive_negative_counts(axis=0)`, nonpositive side. -/
def negCountByMonth (obs : List Obs) (m : Nat) : Nat :=
  (yearsOf obs).countP (fun y => cellNonpos (pivotCell obs y m))

/-- `_get_positive_negative_counts(axis=1)`, positive side: for a year row,
the count of strictly positive cells across the month columns. -/
def posCountByYear (obs : List Obs) (y : Nat) : Nat :=
  (monthsOf obs).countP (fun m => cellPos (pivotCell obs y m))

/-- `_get_positive_negative_counts(axis=1)`, nonpositive side. -/
def negCountByYear (obs : List Obs) (y : Nat) : Nat :=
  (monthsOf obs).countP (fun m => cellNonpos (pivotCell obs y m))

/-- The concrete scenario of the spec: two months of 2021. -/
def demoObs : List Obs :=
  [⟨⟨2021, 1, 4⟩, 100⟩, ⟨⟨2021, 1, 29⟩, 110⟩,
   ⟨⟨2021, 2, 1⟩, 110⟩, ⟨⟨2021, 2, 26⟩, 99⟩]

/-- A single observation, the spec's second concrete scenario. -/
def singleObs : List Obs :=
  [⟨⟨2021, 3, 15⟩, 50⟩]

/-- The demo January reversed: an input not sorted by date. -/
def unsortedObs : List Obs :=
  [⟨⟨2021, 1, 29⟩, 110⟩, ⟨⟨2021, 1, 4⟩, 100⟩]

/-- A month whose first observation has price zero. -/
def zeroFirstObs : List Obs :=
  [⟨⟨2021, 1, 4⟩, 0⟩, ⟨⟨2021, 1, 29⟩, 1⟩]

/-- The failure outcomes relevant to the transform: the dedicated
EmptyInputError named by the spec, and the pandas KeyError that
`pivot("Year", "Month", 0)` raises when the values column `0` is missing.
The code never constructs an EmptyInputError. -/
inductive PipelineError where
  | emptyInputError : PipelineError
  | keyError : PipelineError
deriving DecidableEq, Repr

/-- `_get_stock_performance_transposed` as a whole pipeline. On a nonempty
frame it returns the pivot grid. On an empty frame `groupby('Month')`
forms no groups, so `apply` never calls the lambda and returns an empty
DataFrame with no scalar values column; `pivot("Year", "Month", 0)` then
raises a pandas KeyError for the missing column `0`. -/
def get_stock_performance_transposed (obs : List Obs) :
    Except PipelineError (List (List NpVal)) :=
  match obs with
  | [] => Except.error PipelineError.keyError
  | _ :: _ => Except.ok (perfRows obs)

/-- Evaluation of the classifier on a finite value. -/
lemma apply_color_num (q : ℚ) :
    apply_color_with_nan (NpVal.num q) =
      if (1 / 10 : ℚ) < q then 2 else if 0 ≤ q ∧ q ≤ 1 / 10 then 1 else 0 := by
  simp only [apply_color_with_nan, np_isnan, np_gt, np_ge, np_le,
    Bool.and_eq_true, decide_eq_true_eq, Bool.false_eq_true, if_false]

/-- Every classifier output is one of the four color codes. -/
lemma color_code_range (v : NpVal) :
    apply_color_with_nan v = -1 ∨ apply_color_with_nan v = 0 ∨
    apply_color_with_nan v = 1 ∨ apply_color_with_nan v = 2 := by
  unfold apply_color_with_nan
  split_ifs <;> simp

/-- C2: the classifier is total on (rational value or nan) and returns
exactly one of the four classes: nan maps to -1 (Missing), a value above
1/10 to 2 (LargePositive), a value in [0, 1/10] to 1 (SmallPositive/
Neutral, the boundary 1/10 inclusive), a negative value to 0 (Negative);
for every rational exactly one of the three value branches applies. -/
theorem classifier_total_and_branches :
    apply_color_with_nan NpVal.nan = -1 ∧
    apply_color_with_nan (NpVal.num (1 / 10)) = 1 ∧
    (∀ v : NpVal, apply_color_with_nan v = -1 ∨ apply_color_with_nan v = 0 ∨
      apply_color_with_nan v = 1 ∨ apply_color_with_nan v = 2) ∧
    (∀ q : ℚ,
      ((1 / 10 : ℚ) < q → apply_color_with_nan (NpVal.num q) = 2) ∧
      (0 ≤ q → q ≤ 1 / 10 → apply_color_with_nan (NpVal.num q) = 1) ∧
      (q < 0 → apply_color_with_nan (NpVal.num q) = 0) ∧
      (((1 / 10 : ℚ) < q ∧ ¬(0 ≤ q ∧ q ≤ 1 / 10) ∧ ¬q < 0) ∨
       (¬(1 / 10 : ℚ) < q ∧ (0 ≤ q ∧ q ≤ 1 / 10) ∧ ¬q < 0) ∨
       (¬(1 / 10 : ℚ) < q ∧ ¬(0 ≤ q ∧ q ≤ 1 / 10) ∧ q < 0))) := by
  refine ⟨rfl, ?_, color_code_range, ?_⟩
  · rw [apply_color_num]
    norm_num
  · intro q
    refine ⟨?_, ?_, ?_, ?_⟩
    · intro h
      rw [apply_color_num, if_pos h]
    · intro h0 h1
      rw [apply_color_num, if_neg (not_lt.mpr h1), if_pos ⟨h0, h1⟩]
    · intro h
      have h1 : ¬(1 / 10 : ℚ) < q := by linarith
      have h2 : ¬(0 ≤ q ∧ q ≤ 1 / 10) := fun hc => absurd h (not_lt.mpr hc.1)
      rw [apply_color_num, if_neg h1, if_neg h2]
    · rcases lt_or_le (1 / 10 : ℚ) q with h | h
      · exact Or.inl ⟨h, fun hc => absurd hc.2 (not_le.mpr h),
          not_lt.mpr (by linarith)⟩
      · rcases lt_or_le q 0 with h2 | h2
        · exact Or.inr (Or.inr ⟨not_lt.mpr h,
            fun hc => absurd h2 (not_lt.mpr hc.1), h2⟩)
        · exact Or.inr (Or.inl ⟨not_lt.mpr h, ⟨h2, h⟩, not_lt.mpr h2⟩)

/-- Witness for C2 at concrete inputs 2/10 and -1/10. -/
theorem classifier_branches_witness :
    apply_color_with_nan (NpVal.num (2 / 10)) = 2 ∧
    apply_color_with_nan (NpVal.num (-1 / 10)) = 0 :=
  ⟨(classifier_total_and_branches.2.2.2 (2 / 10)).1 (by norm_num),
   (classifier_total_and_branches.2.2.2 (-1 / 10)).2.2.1 (by norm_num)⟩

/-- C9: a cell whose computed return is exactly 0 is classified 1
(SmallPositive/Neutral, rendered yellow) by the classifier, while the
counter predicates place the same cell in the zero-or-negative bucket and
not in the strictly-positive one. -/
theorem zero_return_yellow_but_counted_nonpositive (obs : List Obs) (y m : Nat)
    (h : pivotCell obs y m = NpVal.num 0) :
    apply_color_with_nan (pivotCell obs y m) = 1 ∧
    cellPos (pivotCell obs y m) = false ∧
    cellNonpos (pivotCell obs y m) = true := by
  rw [h]
  refine ⟨?_, ?_, ?_⟩ <;>
    norm_num [apply_color_with_nan, np_isnan, np_gt, np_ge, np_le,
      cellPos, cellNonpos]

/-- Witness for C9: the single-observation March 2021 cell. -/
theorem zero_return_witness :
    apply_color_with_nan (pivotCell singleObs 2021 3) = 1 ∧
    cellPos (pivotCell singleObs 2021 3) = false ∧
    cellNonpos (pivotCell singleObs 2021 3) = true :=
  zero_return_yellow_but_counted_nonpositive singleObs 2021 3 (by
    norm_num [pivotCell, perfCell, monthGroup, monthKey, singleObs,
      groupReturn, npDiv, List.filter])

/-- C3: a month whose group holds exactly one observation has return
exactly 0, because the positionally first and last rows coincide. -/
theorem single_observation_month_zero_return (obs : List Obs) (y m : Nat)
    (o : Obs) (hg : monthGroup obs y m = [o]) (hp : o.price ≠ 0) :
    perfCell obs y m = some (NpVal.num 0) := by
  simp [perfCell, hg, groupReturn, npDiv, hp]

/-- Witness for C3: the spec scenario of one observation on 2021-03-15. -/
theorem single_observation_witness :
    perfCell singleObs 2021 3 = some (NpVal.num 0) :=
  single_observation_month_zero_return singleObs 2021 3 ⟨⟨2021, 3, 15⟩, 50⟩
    (by norm_num [monthGroup, monthKey, singleObs, List.filter]) (by norm_num)

/-- C10: the color-class matrix has exactly the shape of the performance
matrix (one row per year, one column per month present), and every entry
is one of the codes -1, 0, 1, 2. -/
theorem color_matrix_shape_and_codes (obs : List Obs) :
    (colorRows obs).length = (perfRows obs).length ∧
    (∀ r, r ∈ colorRows obs → r.length = (monthsOf obs).length) ∧
    (∀ r, r ∈ perfRows obs → r.length = (monthsOf obs).length) ∧
    (∀ r, r ∈ colorRows obs → ∀ c, c ∈ r →
      c = -1 ∨ c = 0 ∨ c = 1 ∨ c = 2) := by
  refine ⟨by simp [colorRows, perfRows], ?_, ?_, ?_⟩
  · intro r hr
    rcases List.mem_map.mp hr with ⟨y, _, rfl⟩
    simp
  · intro r hr
    rcases List.mem_map.mp hr with ⟨y, _, rfl⟩
    simp
  · intro r hr c hc
    rcases List.mem_map.mp hr with ⟨y, _, rfl⟩
    rcases List.mem_map.mp hc with ⟨m, _, rfl⟩
    exact color_code_range _

/-- Witness for C10 at the demo input, row of year 2021. -/
theorem color_matrix_shape_witness :
    ((monthsOf demoObs).map
      (fun m => apply_color_with_nan (pivotCell demoObs 2021 m))).length
      = (monthsOf demoObs).length :=
  (color_matrix_shape_and_codes demoObs).2.1 _
    (List.mem_map_of_mem _ (by decide))

/-- C4: the pivot has a defined (present) cell at (y, m) exactly when some
observation falls in that calendar month; an absent cell materializes as
nan in the table, never as a number. -/
theorem cell_defined_iff_month_has_observation (obs : List Obs) (y m : Nat) :
    ((perfCell obs y m).isSome ↔ ∃ o, o ∈ obs ∧ monthKey o = (y, m)) ∧
    (perfCell obs y m = none → pivotCell obs y m = NpVal.nan) := by
  constructor
  · cases hg : monthGroup obs y m with
    | nil =>
      simp only [perfCell, hg, groupReturn, Option.isSome_none,
        Bool.false_eq_true, false_iff]
      rintro ⟨o, ho, hk⟩
      have hmem : o ∈ monthGroup obs y m :=
        List.mem_filter.mpr ⟨ho, by simp [hk]⟩
      rw [hg] at hmem
      exact absurd hmem (List.not_mem_nil o)
    | cons a t =>
      simp only [perfCell, hg, groupReturn, Option.isSome_some, true_iff]
      have hmem : a ∈ monthGroup obs y m := by
        rw [hg]; exact List.mem_cons_self a t
      rcases List.mem_filter.mp hmem with ⟨ha, hk⟩
      exact ⟨a, ha, by simpa using hk⟩
  · intro h
    simp [pivotCell, h]

/-- Witness for C4: January 2021 is defined in the demo input. -/
theorem cell_defined_witness : (perfCell demoObs 2021 1).isSome :=
  (cell_defined_iff_month_has_observation demoObs 2021 1).1.mpr
    ⟨⟨⟨2021, 1, 4⟩, 100⟩, List.mem_cons_self _ _, rfl⟩

/-- Disjoint predicates count at most the whole list. -/
lemma countP_disjoint_le {α : Type} (p q : α → Bool) (l : List α)
    (h : ∀ x, x ∈ l → ¬(p x = true ∧ q x = true)) :
    l.countP p + l.countP q ≤ l.length := by
  induction l with
  | nil => simp
  | cons a l ih =>
    have ha := h a (List.mem_cons_self a l)
    have ih' := ih (fun x hx => h x (List.mem_cons_of_mem a hx))
    rw [List.countP_cons, List.countP_cons, List.length_cons]
    cases hp : p a <;> cases hq : q a
    · simp only [Bool.false_eq_true, if_false]
      omega
    · simp only [Bool.false_eq_true, if_false, if_true]
      omega
    · simp only [Bool.false_eq_true, if_false, if_true]
      omega
    · exact absurd ⟨hp, hq⟩ ha

/-- Disjoint counts meet the length exactly when every element satisfies
one of the predicates. -/
lemma countP_disjoint_eq_iff {α : Type} (p q : α → Bool) (l : List α)
    (h : ∀ x, x ∈ l → ¬(p x = true ∧ q x = true)) :
    (l.countP p + l.countP q = l.length ↔
      ∀ x, x ∈ l → p x = true ∨ q x = true) := by
  induction l with
  | nil => simp
  | cons a l ih =>
    have ha := h a (List.mem_cons_self a l)
    have htail : ∀ x, x ∈ l → ¬(p x = true ∧ q x = true) :=
      fun x hx => h x (List.mem_cons_of_mem a hx)
    have ihl := ih htail
    have hle := countP_disjoint_le p q l htail
    rw [List.countP_cons, List.countP_cons, List.length_cons]
    cases hp : p a <;> cases hq : q a
    · simp only [Bool.false_eq_true, if_false]
      constructor
      · intro he
        exact absurd he (by omega)
      · intro hall
        rcases hall a (List.mem_cons_self a l) with hc | hc
        · rw [hp] at hc
          exact absurd hc (by simp)
        · rw [hq] at hc
          exact absurd hc (by simp)
    · simp only [Bool.false_eq_true, if_false, if_true]
      constructor
      · intro he x hx
        rcases List.mem_cons.mp hx with rfl | hx
        · exact Or.inr hq
        · exact (ihl.mp (by omega)) x hx
      · intro hall
        have := ihl.mpr (fun x hx => hall x (List.mem_cons_of_mem a hx))
        omega
    · simp only [Bool.false_eq_true, if_false, if_true]
      constructor
      · intro he x hx
        rcases List.mem_cons.mp hx with rfl | hx
        · exact Or.inl hp
        · exact (ihl.mp (by omega)) x hx
      · intro hall
        have := ihl.mpr (fun x hx => hall x (List.mem_cons_of_mem a hx))
        omega
    · exact absurd ⟨hp, hq⟩ ha

/-- A cell is never counted in both buckets. -/
lemma cellPos_cellNonpos_not_both (v : NpVal) :
    ¬(cellPos v = true ∧ cellNonpos v = true) := by
  cases v with
  | nan => simp [cellPos, cellNonpos, np_gt, np_le]
  | inf => simp [cellPos, cellNonpos, np_gt, np_le]
  | ninf => simp [cellPos, cellNonpos, np_gt, np_le]
  | num q =>
    simp only [cellPos, cellNonpos, np_gt, np_le, decide_eq_true_eq, not_and]
    intro h1 h2
    linarith

/-- A cell is counted in some bucket exactly when it is not nan. -/
lemma cellPos_or_cellNonpos_iff (v : NpVal) :
    (cellPos v = true ∨ cellNonpos v = true) ↔ v ≠ NpVal.nan := by
  cases v with
  | nan => simp [cellPos, cellNonpos, np_gt, np_le]
  | inf => simp [cellPos, cellNonpos, np_gt, np_le]
  | ninf => simp [cellPos, cellNonpos, np_gt, np_le]
  | num q =>
    simp only [cellPos, cellNonpos, np_gt, np_le, decide_eq_true_eq]
    constructor
    · intro _ hc
      exact NpVal.noConfusion hc
    · intro _
      exact lt_or_le 0 q

/-- Under nonzero prices, a pivot cell is nan exactly when (y, m) has no
observation. -/
lemma pivotCell_eq_nan_iff (obs : List Obs) (y m : Nat)
    (hp : ∀ o, o ∈ obs → o.price ≠ 0) :
    pivotCell obs y m = NpVal.nan ↔ monthGroup obs y m = [] := by
  cases hg : monthGroup obs y m with
  | nil => simp [pivotCell, perfCell, hg, groupReturn]
  | cons a t =>
    have hmem : a ∈ monthGroup obs y m := by
      rw [hg]
      exact List.mem_cons_self a t
    have ha : a.price ≠ 0 := hp a (List.mem_of_mem_filter hmem)
    simp [pivotCell, perfCell, hg, groupReturn, npDiv, ha]

/-- C5: along either axis, the positive and nonpositive counts never
double-count a cell and never exceed the number of cells on that axis;
they exhaust it exactly when every (year, month) pair on the axis has at
least one observation (no missing cell). Stated under the data-model
precondition that prices are nonzero. -/
theorem counter_counts_bound_and_missing (obs : List Obs)
    (hp : ∀ o, o ∈ obs → o.price ≠ 0) :
    (∀ m : Nat,
      posCountByMonth obs m + negCountByMonth obs m ≤ (yearsOf obs).length ∧
      (posCountByMonth obs m + negCountByMonth obs m = (yearsOf obs).length ↔
        ∀ y, y ∈ yearsOf obs → monthGroup obs y m ≠ [])) ∧
    (∀ y : Nat,
      posCountByYear obs y + negCountByYear obs y ≤ (monthsOf obs).length ∧
      (posCountByYear obs y + negCountByYear obs y = (monthsOf obs).length ↔
        ∀ m, m ∈ monthsOf obs → monthGroup obs y m ≠ [])) := by
  constructor
  · intro m
    have hdl : ∀ y, y ∈ yearsOf obs →
        ¬(cellPos (pivotCell obs y m) = true ∧
          cellNonpos (pivotCell obs y m) = true) :=
      fun y _ => cellPos_cellNonpos_not_both _
    refine ⟨countP_disjoint_le _ _ _ hdl, ?_⟩
    rw [posCountByMonth, negCountByMonth, countP_disjoint_eq_iff _ _ _ hdl]
    apply forall_congr'
    intro y
    apply imp_congr_right
    intro _
    rw [cellPos_or_cellNonpos_iff]
    exact not_congr (pivotCell_eq_nan_iff obs y m hp)
  · intro y
    have hdl : ∀ m, m ∈ monthsOf obs →
        ¬(cellPos (pivotCell obs y m) = true ∧
          cellNonpos (pivotCell obs y m) = true) :=
      fun m _ => cellPos_cellNonpos_not_both _
    refine ⟨countP_disjoint_le _ _ _ hdl, ?_⟩
    rw [posCountByYear, negCountByYear, countP_disjoint_eq_iff _ _ _ hdl]
    apply forall_congr'
    intro m
    apply imp_congr_right
    intro _
    rw [cellPos_or_cellNonpos_iff]
    exact not_congr (pivotCell_eq_nan_iff obs y m hp)

/-- Witness for C5 at the demo input, month column 1. -/
theorem counter_counts_witness :
    posCountByMonth demoObs 1 + negCountByMonth demoObs 1 ≤
      (yearsOf demoObs).length :=
  (((counter_counts_bound_and_missing demoObs
    (by intro o ho; fin_cases ho <;> norm_num)).1 1)).1

/-- The defaulted last element of a list belongs to the cons list. -/
lemma mem_getLastD {α : Type} (t : List α) (a : α) : t.getLastD a ∈ a :: t := by
  induction t generalizing a with
  | nil => simp
  | cons b t ih =>
    rw [List.getLastD_cons]
    exact List.mem_cons_of_mem a (ih b)

/-- The date order is reflexive. -/
lemma dateLe_refl (a : Date) : dateLe a a := by
  unfold dateLe
  omega

/-- In a date-sorted group, every element dates at or after the head. -/
lemma sorted_last_max (a : Obs) (t : List Obs)
    (hs : (a :: t).Pairwise (fun x y => dateLe x.date y.date)) :
    ∀ x, x ∈ a :: t → dateLe x.date (t.getLastD a).date := by
  induction t generalizing a with
  | nil =>
    intro x hx
    rw [List.mem_singleton] at hx
    subst hx
    exact dateLe_refl _
  | cons b t ih =>
    intro x hx
    rw [List.getLastD_cons]
    rcases List.mem_cons.mp hx with rfl | hx
    · exact (List.pairwise_cons.mp hs).1 _ (mem_getLastD t b)
    · exact ih b (List.pairwise_cons.mp hs).2 x hx

/-- C1: for a date-sorted input with nonzero prices, every populated month
cell equals (last - first) / first where first and last are observations
of that month that are chronologically minimal and maximal. -/
theorem sorted_month_cell_is_chronological_return (obs : List Obs)
    (hs : sortedByDate obs) (y m : Nat)
    (hne : monthGroup obs y m ≠ [])
    (hp : ∀ o, o ∈ obs → o.price ≠ 0) :
    ∃ f l, f ∈ monthGroup obs y m ∧ l ∈ monthGroup obs y m ∧
      (∀ x, x ∈ monthGroup obs y m → dateLe f.date x.date) ∧
      (∀ x, x ∈ monthGroup obs y m → dateLe x.date l.date) ∧
      perfCell obs y m = some (NpVal.num ((l.price - f.price) / f.price)) := by
  cases hg : monthGroup obs y m with
  | nil => exact absurd hg hne
  | cons a t =>
    have hs' : obs.Pairwise (fun x y => dateLe x.date y.date) := hs
    have hgs : (a :: t).Pairwise (fun x y => dateLe x.date y.date) := by
      rw [← hg]
      exact hs'.sublist (List.filter_sublist obs)
    have hamem : a ∈ monthGroup obs y m := by
      rw [hg]
      exact List.mem_cons_self a t
    have hfa : a.price ≠ 0 := hp a (List.mem_of_mem_filter hamem)
    refine ⟨a, t.getLastD a, List.mem_cons_self a t, mem_getLastD t a,
      ?_, ?_, ?_⟩
    · intro x hx
      rcases List.mem_cons.mp hx with rfl | hx
      · exact dateLe_refl _
      · exact (List.pairwise_cons.mp hgs).1 x hx
    · intro x hx
      exact sorted_last_max a t hgs x hx
    · simp [perfCell, hg, groupReturn, npDiv, hfa]

/-- Witness for C1: the demo input, January 2021. -/
theorem sorted_month_cell_witness :
    ∃ f l, f ∈ monthGroup demoObs 2021 1 ∧ l ∈ monthGroup demoObs 2021 1 ∧
      (∀ x, x ∈ monthGroup demoObs 2021 1 → dateLe f.date x.date) ∧
      (∀ x, x ∈ monthGroup demoObs 2021 1 → dateLe x.date l.date) ∧
      perfCell demoObs 2021 1 =
        some (NpVal.num ((l.price - f.price) / f.price)) :=
  sorted_month_cell_is_chronological_return demoObs (by decide) 2021 1
    (by simp [monthGroup, monthKey, demoObs, List.filter])
    (by intro o ho; fin_cases ho <;> norm_num)

/-- C6 counterexample: on the empty input the transform does fail, but
with the pandas KeyError raised by the pivot over the missing values
column — not with the dedicated EmptyInputError the spec names, which the
code never constructs. -/
theorem empty_input_fails_with_library_error :
    get_stock_performance_transposed [] = Except.error PipelineError.keyError ∧
    ¬ get_stock_performance_transposed [] =
        Except.error PipelineError.emptyInputError := by
  constructor
  · rfl
  · intro h
    have hk : Except.error (ε := PipelineError) (α := List (List NpVal))
        PipelineError.keyError = Except.error PipelineError.emptyInputError := h
    exact PipelineError.noConfusion (Except.error.inj hk)

/-- C6 amended: the transform fails on the empty input — with a pandas
KeyError from the pivot, no dedicated error class — and returns the pivot
grid on every nonempty input. -/
theorem empty_input_raises_key_error (obs : List Obs) :
    (obs = [] →
      get_stock_performance_transposed obs =
        Except.error PipelineError.keyError) ∧
    (obs ≠ [] →
      get_stock_performance_transposed obs = Except.ok (perfRows obs)) := by
  constructor
  · intro h
    subst h
    rfl
  · intro h
    cases obs with
    | nil => exact absurd rfl h
    | cons a t => rfl

/-- Witness for C6 amended: the empty input and the demo input. -/
theorem empty_input_raises_key_error_witness :
    get_stock_performance_transposed ([] : List Obs) =
      Except.error PipelineError.keyError ∧
    get_stock_performance_transposed demoObs = Except.ok (perfRows demoObs) :=
  ⟨(empty_input_raises_key_error []).1 rfl,
   (empty_input_raises_key_error demoObs).2 (by simp [demoObs])⟩

/-- C7 counterexample: a month whose first observation has price 0 does
not fail; its cell is the IEEE value +inf — a value, not an error. -/
theorem zero_first_price_infinite_cell :
    perfCell zeroFirstObs 2021 1 = some NpVal.inf := by
  norm_num [perfCell, monthGroup, monthKey, zeroFirstObs, groupReturn,
    npDiv, List.filter]

/-- C7 amended: a zero first price in a month never raises; the cell is
nan when the last price is also 0, +inf when it is positive and -inf when
it is negative, exactly as IEEE float division behaves. -/
theorem zero_first_price_ieee_result (obs : List Obs) (y m : Nat)
    (a : Obs) (t : List Obs) (hg : monthGroup obs y m = a :: t)
    (ha : a.price = 0) :
    perfCell obs y m =
      some (if (t.getLastD a).price = 0 then NpVal.nan
        else if 0 < (t.getLastD a).price then NpVal.inf else NpVal.ninf) := by
  simp [perfCell, hg, groupReturn, npDiv, ha]

/-- Witness for C7 amended, at the concrete zero-first-price input. -/
theorem zero_first_price_ieee_witness :
    perfCell zeroFirstObs 2021 1 =
      some (if (([⟨⟨2021, 1, 29⟩, 1⟩] : List Obs).getLastD
          ⟨⟨2021, 1, 4⟩, 0⟩).price = 0 then NpVal.nan
        else if 0 < (([⟨⟨2021, 1, 29⟩, 1⟩] : List Obs).getLastD
          ⟨⟨2021, 1, 4⟩, 0⟩).price then NpVal.inf else NpVal.ninf) :=
  zero_first_price_ieee_result zeroFirstObs 2021 1 ⟨⟨2021, 1, 4⟩, 0⟩
    [⟨⟨2021, 1, 29⟩, 1⟩]
    (by simp [monthGroup, monthKey, zeroFirstObs, List.filter]) rfl

/-- C8 counterexample: an input not sorted by date is neither rejected nor
defensively sorted: the transform silently computes the January 2021 cell
from positional endpoints, giving -1/11, while the same observations in
chronological order give 1/10. -/
theorem unsorted_input_silently_positional :
    ¬ sortedByDate unsortedObs ∧
    perfCell unsortedObs 2021 1 = some (NpVal.num (-1 / 11)) ∧
    perfCell demoObs 2021 1 = some (NpVal.num (1 / 10)) ∧
    NpVal.num (-1 / 11) ≠ NpVal.num (1 / 10) := by
  refine ⟨by decide, ?_, ?_, ?_⟩
  · norm_num [perfCell, monthGroup, monthKey, unsortedObs, groupReturn,
      npDiv, List.filter]
  · norm_num [perfCell, monthGroup, monthKey, demoObs, groupReturn,
      npDiv, List.filter]
  · intro h
    rw [NpVal.num.injEq] at h
    norm_num at h

/-- C8 amended: the transform is a deterministic total function of the
input list as given: whatever the order, each populated month cell is the
return over that month's positionally first and last observations. -/
theorem transform_uses_input_order (obs : List Obs) (y m : Nat)
    (a : Obs) (t : List Obs) (hg : monthGroup obs y m = a :: t) :
    perfCell obs y m =
      some (npDiv ((t.getLastD a).price - a.price) a.price) := by
  simp [perfCell, hg, groupReturn]

/-- Witness for C8 amended, at the unsorted concrete input. -/
theorem transform_input_order_witness :
    perfCell unsortedObs 2021 1 =
      some (npDiv ((([⟨⟨2021, 1, 4⟩, 100⟩] : List Obs).getLastD
          ⟨⟨2021, 1, 29⟩, 110⟩).price - (⟨⟨2021, 1, 29⟩, 110⟩ : Obs).price)
        (⟨⟨2021, 1, 29⟩, 110⟩ : Obs).price) :=
  transform_uses_input_order unsortedObs 2021 1 ⟨⟨2021, 1, 29⟩, 110⟩
    [⟨⟨2021, 1, 4⟩, 100⟩]
    (by simp [monthGroup, monthKey, unsortedObs, List.filter])
